import Mathlib

/-!
# Verification of CGATPipelines against its specification

This development shallowly embeds the parts of the CGATPipelines repository
(table2table.py, pipeline_mapping.py, pipeline_rnaseqdiffexpression.py and the
report trackers) that the specification talks about, and proves or refutes the
specification's claims about them.

Python strings are modelled as `String` (or `List Char` where character-level
reasoning is needed), Python lists as `List`, Python dictionaries of
configuration values as association lists, exceptions as `Option`/`Except`,
and the SQL database as a function from table names to optional row lists.
Functions of the repository that are referenced but whose source is not part
of the analysed tree (`P.run`, `P.load`, `P.toTable`, the ruffus scheduler)
are modelled from the specification's own description and carry a doc comment
saying so.
-/

namespace CGAT

/-! ## Generic helpers -/

/-- `a.containsStr b` : `b` occurs as a contiguous substring of `a`
(Python's `b in a`). -/
def containsStr (a b : String) : Bool := decide (b.data <:+: a.data)

/-- Truthiness of an ini-file configuration value as Python evaluates it for
the string/integer values found in the pipeline configuration: the empty
string, `"0"` and `"False"` are falsy, everything else is truthy. -/
def pyTruthy (s : String) : Bool := ¬ (s = "" ∨ s = "0" ∨ s = "False")

/-- Configuration dictionary `PARAMS`: key/value pairs from the ini file. -/
abbrev Params := List (String × String)

/-- `PARAMS[key]` lookup (missing keys are modelled as the empty string). -/
def getParam (ps : Params) (key : String) : String :=
  match List.lookup key ps with
  | some v => v
  | none => ""

/-! ## table2table.py, split-fields mode (claim C9)

In split-fields mode the program splits every field of a row at the
separator and writes one output row per element of the Cartesian product
(`itertools.product`) of the split fields. -/

/-- Python `s.split(sep)` for a nonempty separator `sep`: splits at every
non-overlapping occurrence of `sep`, keeping empty pieces, scanning left to
right.  The fuel argument starts at the length of the string, which bounds the
number of steps. -/
def pysplitAux (sep : List Char) : Nat → List Char → List Char → List (List Char)
  | _, [], acc => [acc.reverse]
  | 0, _ :: _, acc => [acc.reverse]
  | fuel + 1, c :: rest, acc =>
    if sep.isPrefixOf (c :: rest) then
      acc.reverse :: pysplitAux sep fuel (List.drop sep.length (c :: rest)) []
    else
      pysplitAux sep fuel rest (c :: acc)

/-- Python `s.split(sep)` (`sep` nonempty). -/
def pysplit (sep s : List Char) : List (List Char) :=
  pysplitAux sep s.length s []

/-- `itertools.product` over a list of lists, rightmost factor varying
fastest, as iterated by the split-fields loop. -/
def itertoolsProduct : List (List α) → List (List α)
  | [] => [[]]
  | l :: ls => l.flatMap (fun x => (itertoolsProduct ls).map (fun t => x :: t))

/-- The body of the split-fields loop of table2table.py for one input row:
`row = [ x.split(options.separator) for x in row ]` followed by
`for d in itertools.product( *row ): ... write d`. -/
def splitFieldsRow (sep : List Char) (row : List (List Char)) : List (List (List Char)) :=
  itertoolsProduct (row.map (fun x => pysplit sep x))

/-- The whole split-fields mode over the table body: each input row is
expanded in place. -/
def splitFieldsTable (sep : List Char) (table : List (List (List Char))) :
    List (List (List Char)) :=
  table.flatMap (fun row => splitFieldsRow sep row)

/-! ## table2table.py, readAndTransposeTable (claim C8)

The transpose mode collects the non-comment lines as rows of tab-separated
fields (`rows`), allocates `ncols = max(map(len, rows))` output rows of
`nrows = len(rows)` empty strings each, and copies `rows[r][c]` into
`new_rows[c][r]`.  Python's `max` raises on an empty sequence; this is
modelled by returning `none` for an empty row list. -/

/-- One cell of the `new_rows` matrix (a list of rows of strings). -/
def entry (m : List (List String)) (c r : Nat) : String :=
  (m.getD c []).getD r ""

/-- `new_rows = [ [""] * nrows for x in range(ncols) ]`. -/
def emptyMatrix (ncols nrows : Nat) : List (List String) :=
  List.replicate ncols (List.replicate nrows "")

/-- `new_rows[c][r] = v` (out-of-range assignments leave the matrix
unchanged, as they cannot happen in the source). -/
def setEntry (m : List (List String)) (c r : Nat) (v : String) : List (List String) :=
  m.set c ((m.getD c []).set r v)

/-- The inner loop `for c in range(0, len(rows[r])): new_rows[c][r] = rows[r][c]`. -/
def fillRow (m : List (List String)) (r : Nat) (row : List String) : List (List String) :=
  (List.range row.length).foldl (fun acc c => setEntry acc c r (row.getD c "")) m

/-- The outer loop `for r in range(0, len(rows))` of readAndTransposeTable,
starting from the freshly allocated matrix. -/
def transposeFill (rows : List (List String)) (ncols : Nat) : List (List String) :=
  (List.range rows.length).foldl
    (fun acc r => fillRow acc r (rows.getD r []))
    (emptyMatrix ncols rows.length)

/-- `ncols = max( map( lambda x: len(x), rows ) )` for nonempty `rows`
(Python `max` folds the maximum over the sequence). -/
def ncolsOf (rows : List (List String)) : Nat :=
  (rows.map List.length).foldl max 0

/-- readAndTransposeTable (default format) at the level of the collected
rows: `none` models the `ValueError` Python's `max` raises on an empty
sequence, otherwise the list of output rows that are written out. -/
def readAndTransposeTable (rows : List (List String)) : Option (List (List String)) :=
  match rows.map List.length with
  | [] => none
  | n :: ns => some (transposeFill rows (ns.foldl max n))

/-! ## splitLocus (claim C10)

`splitLocus` in RnaseqDiffExpressionReport.py matches
`(\S+):(\d+)\.\.(\d+)` when the locus contains `".."`, else
`(\S+):(\d+)\-(\d+)` when it contains `"-"`, and otherwise falls through to
the `return` with `contig`, `start`, `end` unbound, raising an exception
(modelled as `none`).  The matcher below implements `re.match` for these two
patterns: the greedy `\S+` tries the longest all-non-whitespace prefix first
and backtracks to shorter ones; `\d+` is a maximal digit run (shorter runs
cannot be followed by the separator, whose first character is not a digit). -/

/-- Python (ASCII) regex whitespace class `\s`. -/
def isSpaceChar (c : Char) : Bool :=
  c = ' ' ∨ c = '\t' ∨ c = '\n' ∨ c = '\r' ∨ c = '\x0b' ∨ c = '\x0c'

/-- Python regex digit class `\d` (ASCII). -/
def isDigitChar (c : Char) : Bool := c.isDigit

/-- Python `int()` on a digit string. -/
def natOfDigits (ds : List Char) : Nat :=
  ds.foldl (fun n c => n * 10 + (c.toNat - 48)) 0

/-- Match `(\d+)sep(\d+)` against the text following the colon, returning
the two digit groups. -/
def matchNumPair (sep t : List Char) : Option (List Char × List Char) :=
  let d1 := t.takeWhile isDigitChar
  if d1.isEmpty then none
  else
    let t1 := t.dropWhile isDigitChar
    if sep.isPrefixOf t1 then
      let d2 := (t1.drop sep.length).takeWhile isDigitChar
      if d2.isEmpty then none else some (d1, d2)
    else none

/-- Try the match with the `\S+` group bound to the first `k` characters:
character `k` must be the colon, and `(\d+)sep(\d+)` must match after it. -/
def tryMatchAt (s sep : List Char) (k : Nat) : Option (List Char × Nat × Nat) :=
  if s.get? k = some ':' then
    (matchNumPair sep (s.drop (k + 1))).map
      (fun p => (s.take k, natOfDigits p.1, natOfDigits p.2))
  else none

/-- Greedy backtracking over the length of the `\S+` group, longest first,
down to length 1. -/
def searchSplit (s sep : List Char) : Nat → Option (List Char × Nat × Nat)
  | 0 => none
  | k + 1 =>
    match tryMatchAt s sep (k + 1) with
    | some r => some r
    | none => searchSplit s sep k

/-- `re.match("(\S+):(\d+)sep(\d+)", s)`: the `\S+` group is bounded by the
maximal all-non-whitespace prefix of `s`. -/
def splitLocusCore (s sep : List Char) : Option (List Char × Nat × Nat) :=
  searchSplit s sep (s.takeWhile (fun c => !(isSpaceChar c))).length

/-- `splitLocus` of RnaseqDiffExpressionReport.py; `none` models the
exception raised when neither pattern applies (or a pattern fails to match). -/
def splitLocus (locus : String) : Option (String × Nat × Nat) :=
  if ['.', '.'] <:+: locus.data then
    (splitLocusCore locus.data ['.', '.']).map
      (fun r => (String.mk r.1, r.2.1, r.2.2))
  else if ['-'] <:+: locus.data then
    (splitLocusCore locus.data ['-']).map
      (fun r => (String.mk r.1, r.2.1, r.2.2))
  else none

/-! ## Pipeline task embedding (claims C1, C2, C4, C7)

A pipeline task body is embedded as the sequence of effectful calls it makes
(its *trace*): building a shell statement and calling `P.run()`, or calling
`P.load(...)`.  The tasks of pipeline_mapping.py and
pipeline_rnaseqdiffexpression.py perform no other effects relevant to the
claims, and none of them contains an exception handler around a shell
invocation (the only `try/except` blocks in the two files are a module-level
`NameError` probe and two `sqlite3.OperationalError` handlers around database
queries in `buildMaskGtf`). -/

/-- An effectful call made by a task body. -/
inductive Action where
  | runShell (statement : String)
  | load (infile : String) (tablename : String) (options : String)
  deriving DecidableEq

/-- Modelled from the spec: `P.snip` (CGATPipelines/Pipeline.py, not under
`src/`) strips a given suffix from a filename. -/
def snip (s sfx : String) : String :=
  if sfx.data.isSuffixOf s.data then
    String.mk (s.data.take (s.data.length - sfx.data.length))
  else s

/-- Modelled from the spec: `os.path.basename`; the part of the path after
the last `/`. -/
def basename (s : String) : String :=
  String.mk ((s.data.reverse.takeWhile (fun c => c ≠ '/')).reverse)

/-- Modelled from the spec: `P.toTable` (not under `src/`) derives the
database table name from a load task's output file, giving the
`<track>_<stage>` naming convention: the `.load` suffix is stripped, the
directory part is dropped and the characters `.` and `-` are rewritten
to `_`. -/
def toTable (outfile : String) : String :=
  String.mk ((basename (snip outfile ".load")).data.map
    (fun c => if c = '.' ∨ c = '-' then '_' else c))

/-- Modelled from the spec: `os.path.abspath`; the filesystem is not
modelled, so the path is kept as it is. -/
def abspath (s : String) : String := s

/-- Modelled from the spec: `P.run` (CGATPipelines/Pipeline.py, not under
`src/`) executes the shell `statement` in the caller's frame; a non-zero
exit code of the invoked command raises an exception, modelled as
`Except.error` carrying the failed statement.  `exec` gives each statement's
exit code. -/
def prun (exec : String → Nat) (statement : String) : Except String Unit :=
  if exec statement = 0 then Except.ok () else Except.error statement

/-- Running a task body: its trace is executed in order; a failing shell
invocation raises, which — there being no handler in any task body — aborts
the task at that point with the error. -/
def execTrace (exec : String → Nat) : List Action → Except String Unit
  | [] => Except.ok ()
  | Action.runShell s :: rest =>
    match prun exec s with
    | Except.ok _ => execTrace exec rest
    | Except.error e => Except.error e
  | Action.load _ _ _ :: rest => execTrace exec rest

/-- Modelled from the spec: `PipelineMapping.Counter.build` (repository code
not under `src/`) builds the shell command that counts the reads in the
input file and writes the count to the output file. -/
def counterBuild (infile outfile : String) : String :=
  "countReads " ++ infile ++ " > " ++ outfile

/-- Modelled from the spec: `PipelineMapping.Tophat.build` (repository code
not under `src/`) builds the tophat invocation from the configured
executable, the accumulated tophat options and the input/output files. -/
def tophatBuild (executable options infile outfile : String) : String :=
  executable ++ " " ++ options ++ " " ++ infile ++ " > " ++ outfile

/-- The options string accumulated by `mapReadsWithTophat`
(pipeline_mapping.py lines 687-695): the configured `tophat_options` plus
`--raw-juncs`, and, when `tophat_include_reference_transcriptome` is set,
the transcriptome index derived from the transcriptome file. -/
def tophatOptionsOf (ps : Params) (reffile transcriptfile : String) : String :=
  let opts := getParam ps "tophat_options" ++ " --raw-juncs " ++ reffile ++ " "
  if pyTruthy (getParam ps "tophat_include_reference_transcriptome") then
    opts ++ " --transcriptome-index=" ++ abspath (snip transcriptfile ".fa") ++ " -n 2"
  else opts

/-- The statement built by `mapReadsWithTophat` (pipeline_mapping.py lines
683-697): `m.build((infile,), outfile)` with the executable taken from the
configuration (`P.substituteParameters`, modelled as the parameter lookup). -/
def mapReadsWithTophatStatement (ps : Params) (infiles : List String) (outfile : String) :
    String :=
  let infile := infiles.getD 0 ""
  let reffile := infiles.getD 1 ""
  let transcriptfile := infiles.getD 2 ""
  tophatBuild (getParam ps "tophat_executable")
    (tophatOptionsOf ps reffile transcriptfile) infile outfile

/-- The statement built by `countReads` (pipeline_mapping.py lines 642-646). -/
def countReadsStatement (_ps : Params) (infiles : List String) (outfile : String) : String :=
  counterBuild (infiles.getD 0 "") outfile

/-- The statement template of `runDESeq`
(pipeline_rnaseqdiffexpression.py lines 1336-1352), with the configuration
values interpolated where the Python template names them. -/
def runDESeqStatement (ps : Params) (infiles : List String) (outfile : String) : String :=
  let design_file := infiles.getD 0 ""
  let count_file := infiles.getD 1 ""
  let track := snip outfile ".tsv.gz"
  "python " ++ getParam ps "scriptsdir" ++ "/runExpression.py --method=deseq" ++
    " --tags-tsv-file=" ++ count_file ++
    " --design-tsv-file=" ++ design_file ++
    " --output-filename-pattern=" ++ track ++ "." ++
    " --outfile=" ++ outfile ++
    " --fdr=" ++ getParam ps "deseq_fdr" ++
    " --deseq-fit-type=" ++ getParam ps "deseq_fit_type" ++
    " --deseq-dispersion-method=" ++ getParam ps "deseq_dispersion_method" ++
    " --deseq-sharing-mode=" ++ getParam ps "deseq_sharing_mode" ++
    " --filter-min-counts-per-row=" ++ getParam ps "tags_filter_min_counts_per_row" ++
    " --filter-min-counts-per-sample=" ++ getParam ps "tags_filter_min_counts_per_sample" ++
    " --filter-percentile-rowsums=" ++ getParam ps "tags_filter_percentile_rowsums" ++
    " > " ++ outfile ++ ".log "

/-- A pipeline stage (a ruffus-decorated task function): its name and its
trace as a function of the input files, the output file and `PARAMS`. -/
structure Stage where
  name : String
  trace : List String → String → Params → List Action

/-- `countReads`: builds the counting statement and calls `P.run()`. -/
def countReadsStage : Stage :=
  ⟨"countReads", fun ins out ps => [Action.runShell (countReadsStatement ps ins out)]⟩

/-- `mapReadsWithTophat`: builds the tophat statement and calls `P.run()`. -/
def mapReadsWithTophatStage : Stage :=
  ⟨"mapReadsWithTophat",
    fun ins out ps => [Action.runShell (mapReadsWithTophatStatement ps ins out)]⟩

/-- `runDESeq`: builds the runExpression.py statement and calls `P.run()`. -/
def runDESeqStage : Stage :=
  ⟨"runDESeq", fun ins out ps => [Action.runShell (runDESeqStatement ps ins out)]⟩

/-- `loadTophatStats` (pipeline_mapping.py lines 863-867): the body is the
single call `P.load(infile, outfile)`, with the default table name derived
from the output file and no extra options. -/
def loadTophatStatsStage : Stage :=
  ⟨"loadTophatStats", fun ins out _ => [Action.load (ins.getD 0 "") (toTable out) ""]⟩

/-- `loadDESeq` (pipeline_rnaseqdiffexpression.py lines 1356-1374):
`P.load(infile, outfile, tablename=P.toTable(outfile) + "_gene_diff",
options="--allow-empty-file --add-index=test_id")`. -/
def loadDESeqStage : Stage :=
  ⟨"loadDESeq", fun ins out _ =>
    [Action.load (ins.getD 0 "") (toTable out ++ "_gene_diff")
      "--allow-empty-file --add-index=test_id"]⟩

/-- `mapping` (pipeline_mapping.py lines 1134-1136): the aggregate target of
the configured mappers; its body is `pass` — it performs no action at all. -/
def mappingStage : Stage :=
  ⟨"mapping", fun _ _ _ => []⟩

/-- The modelled pipeline stages (a representative cross-section of the two
pipelines' task graphs, embedded from their bodies above). -/
def pipelineStages : List Stage :=
  [countReadsStage, mapReadsWithTophatStage, runDESeqStage,
   loadTophatStatsStage, loadDESeqStage, mappingStage]

/-- The stages whose bodies invoke an external tool through a built shell
statement. -/
def toolStages : List Stage :=
  [countReadsStage, mapReadsWithTophatStage, runDESeqStage]

/-- The load tasks among the modelled stages. -/
def loadStages : List Stage :=
  [loadTophatStatsStage, loadDESeqStage]

/-- The three-step shape claimed for every pipeline stage: the stage builds
one shell command and invokes it via `P.run()`, and some load task among the
pipeline's stages loads tabular output into the database. -/
def stageFollowsThreeStepShape (st : Stage) : Prop :=
  (∀ ins out ps, ∃ s, st.trace ins out ps = [Action.runShell s]) ∧
  (∃ lt, lt ∈ pipelineStages ∧
    ∀ ins out ps, ∃ i t o, lt.trace ins out ps = [Action.load i t o])

/-! ## The database model (claims C4, C5, C6)

The database is a map from table names to the rows stored in the table. -/

/-- A database state: table name to stored rows (each row a list of
character-list fields), `none` when the table does not exist. -/
def DB := String → Option (List (List (List Char)))

/-- Modelled from the spec: the table loader behind `P.load`/csv2db
(repository code not under `src/`) — the target table is (re)created from
the given rows, so a table is overwritten on re-run; other tables are
untouched. -/
def loadTable (db : DB) (name : String) (rows : List (List (List Char))) : DB :=
  fun n => if n = name then some rows else db n

/-- Splitting one line at a (single-character) separator, keeping empty
fields — the row shape the tab-separated tool output has and the loader
recovers. -/
def splitChar (t : Char) : List Char → List (List Char)
  | [] => [[]]
  | c :: rest =>
    if c = t then [] :: splitChar t rest
    else
      match splitChar t rest with
      | [] => [[c]]
      | r :: rs => (c :: r) :: rs

/-- Python `sep.join(fields)` for a single-character separator, as used by
`"\t".join(...)` when the stats tasks write their tables. -/
def joinChar (t : Char) : List (List Char) → List Char
  | [] => []
  | [f] => f
  | f :: g :: rest => f ++ t :: joinChar t (g :: rest)

/-- Modelled from the spec: csv2db loads tab-separated output verbatim —
each line becomes one row whose values are the tab-separated fields of the
line. -/
def loadTSV (db : DB) (name : String) (lines : List (List Char)) : DB :=
  loadTable db name (lines.map (fun l => splitChar '\t' l))

/-- The database effect of one action of a task trace; `files` gives the
lines of the tab-separated file a load action reads. -/
def applyAction (files : String → List (List Char)) (db : DB) : Action → DB
  | Action.runShell _ => db
  | Action.load infile tablename _ => loadTSV db tablename (files infile)

/-- The database effect of a whole task trace. -/
def applyTrace (files : String → List (List Char)) (db : DB) (tr : List Action) : DB :=
  tr.foldl (fun d a => applyAction files d a) db

/-! ## Report trackers and table naming (claim C5) -/

/-- The SQL statement built by `RelativeAbundance.__call__`
(RelativeAbundance.py lines 41-52) for a captured `track` and a taxonomic
level. -/
def relativeAbundanceStatement (track taxon : String) : String :=
  "SELECT taxon, rel_abundance " ++ "FROM " ++ track ++ "_relab" ++
    " WHERE taxon_level == \x27" ++ taxon ++ "\x27 AND rel_abundance > 1"

/-- The SQL statement built by `ContributingReads.__call__`
(RelativeAbundance.py lines 15-29) for a captured `track`. -/
def contributingReadsStatement (track : String) : String :=
  "SELECT count(*) " ++ "FROM " ++ track ++ "_readmap"

/-- The SQL statement built by `SleuthResults.__call__` (Results.py lines
27-40) for a captured `track` (the `where` attribute is empty in
`SleuthResults` and a concrete filter in `SleuthResultsSig`). -/
def sleuthResultsStatement (track whereClause : String) : String :=
  "SELECT A.gene_name, A.gene_id, A.transcript_id, A.transcript_biotype," ++
    " A.control_mean AS expression, A.fold, A.l2fold AS log2_fold," ++
    " A.p_value, A.p_value_adj, A.significant, B.reason AS flagged " ++
    "FROM " ++ track ++ "_DEresults" ++ " AS A" ++
    " LEFT JOIN kallisto_flagged_transcripts AS B" ++
    " ON A.transcript_id = B.transcript_id " ++ whereClause ++
    " ORDER BY A.significant DESC, A.fold DESC"

/-- A statement addresses a table when its `FROM` clause names it. -/
def addressesTable (statement table : String) : Prop :=
  ("FROM " ++ table).data <:+: statement.data

/-- A load task for the naming-convention claim: the declared output file as
a function of the track (constant for merge tasks, which have a single
output), and the table name the body passes to `P.load` as a function of
that output file. -/
structure LoadTask where
  name : String
  outfileFor : String → String
  tablenameOf : String → String

/-- `loadDESeq`: per-track output `<track>_deseq.load` (from
`@transform(runDESeq, suffix(".tsv.gz"), "_deseq.load")`), loaded into
`P.toTable(outfile) + "_gene_diff"`. -/
def loadDESeqTask : LoadTask :=
  ⟨"loadDESeq", fun track => track ++ "_deseq.load",
    fun out => toTable out ++ "_gene_diff"⟩

/-- `loadTophatStats`: a single merged output `tophat_stats.load` (from
`@merge(mapReadsWithTophat, "tophat_stats.tsv")` followed by
`@transform(..., suffix(".tsv"), ".load")`), loaded into the default table
`P.toTable(outfile)` whatever the track is. -/
def loadTophatStatsTask : LoadTask :=
  ⟨"loadTophatStats", fun _ => "tophat_stats.load", fun out => toTable out⟩

/-- The modelled load tasks. -/
def loadTasks : List LoadTask := [loadDESeqTask, loadTophatStatsTask]

/-- A track name is plain when it contains none of the characters the
table-name derivation rewrites or strips (directory separators, dots,
dashes). -/
def plainTrack (track : String) : Prop :=
  ∀ c ∈ track.data, c ≠ '/' ∧ c ≠ '.' ∧ c ≠ '-'

/-- The load-task half of the naming-convention claim: every load task
derives its table name from the track plus a fixed stage suffix. -/
def loadTasksFollowTrackNaming : Prop :=
  ∀ lt ∈ loadTasks, ∃ sfx, ∀ track : String,
    plainTrack track → lt.tablenameOf (lt.outfileFor track) = track ++ sfx

/-! ## Resource hints and scheduling (claim C7) -/

/-- The declarative per-task resource hints ruffus/the cluster layer read
from a task body's local variables and decorators. -/
structure ResourceHints where
  job_threads : Option String
  job_memory : Option String
  jobs_limit : Option Nat
  deriving DecidableEq

/-- The hints set by `mapReadsWithTophat` (pipeline_mapping.py lines
674-681): `job_threads` from `tophat_threads`, and `job_memory` `"50G"`
when `--butterfly-search` is among the tophat options, else
`tophat_memory`. -/
def mapReadsWithTophatHints (ps : Params) : ResourceHints :=
  { job_threads := some (getParam ps "tophat_threads")
    job_memory := some
      (if containsStr (getParam ps "tophat_options") "--butterfly-search" then "50G"
       else getParam ps "tophat_memory")
    jobs_limit := none }

/-- The hints of `loadTophatStats` (pipeline_mapping.py line 863):
`@jobs_limit(PARAMS.get("jobs_limit_db", 1), "db")`. -/
def loadTophatStatsHints (ps : Params) : ResourceHints :=
  { job_threads := none
    job_memory := none
    jobs_limit := some
      (match List.lookup "jobs_limit_db" ps with
       | some v => v.toNat!
       | none => 1) }

/-! ## The incremental re-run decision (claim C3) -/

/-- A task's declarative input/output description, as the decorators state
it. -/
structure TaskDecl where
  inputs : List String
  output : String

/-- The file state at the start of a pipeline run: modification time of each
existing file. -/
def FileState := String → Option Nat

/-- The output file `tophat.dir/<track>.tophat.bam` derived by the
`@transform(SEQUENCEFILES, SEQUENCEFILES_REGEX, add_inputs(buildJunctions,
buildReferenceTranscriptome), r"tophat.dir/\1.tophat.bam")` decorator of
`mapReadsWithTophat` from the track captured from the input file name. -/
def tophatOutputFor (track : String) : String :=
  "tophat.dir/" ++ track ++ ".tophat.bam"

/-- The declarative description of one `mapReadsWithTophat` job: the
sequence file plus the two added inputs, and the derived output. -/
def tophatTaskDecl (infile junctions transcriptome track : String) : TaskDecl :=
  ⟨[infile, junctions, transcriptome], tophatOutputFor track⟩

/-- Modelled from the spec: the third-party workflow library's (ruffus)
incremental re-run decision — a task is skipped when its declared output
file exists and is newer than all of its declared input files.  This
repository contributes only the declarative `TaskDecl` data. -/
def taskUpToDate (fs : FileState) (t : TaskDecl) : Bool :=
  match fs t.output with
  | none => false
  | some tout =>
    t.inputs.all (fun i =>
      match fs i with
      | none => false
      | some tin => tin < tout)

/-! ## Theorems -/

theorem sum_map_constant (l : List α) (k : Nat) : (l.map (fun _ => k)).sum = l.length * k := by
  induction l with
  | nil => simp
  | cons a l ih => simp [ih, Nat.succ_mul, Nat.add_comm]

theorem itertoolsProduct_length (ls : List (List α)) :
    (itertoolsProduct ls).length = (ls.map List.length).prod := by
  induction ls with
  | nil => simp [itertoolsProduct]
  | cons l ls ih =>
    simp only [itertoolsProduct, List.length_flatMap, Function.comp_def, List.length_map]
    rw [sum_map_constant, ih, List.map_cons, List.prod_cons]

theorem mem_itertoolsProduct {ls : List (List α)} {d : List α}
    (h : d ∈ itertoolsProduct ls) : List.Forall₂ (fun v l => v ∈ l) d ls := by
  induction ls generalizing d with
  | nil =>
    simp [itertoolsProduct] at h
    subst h
    exact List.Forall₂.nil
  | cons l ls ih =>
    simp only [itertoolsProduct, List.mem_flatMap, List.mem_map] at h
    obtain ⟨x, hx, t, ht, rfl⟩ := h
    exact List.Forall₂.cons hx (ih ht)

/-- C9: in split-fields mode, each input row produces one output row per
element of the Cartesian product of its separator-split fields — the number
of output rows equals the product over the fields of the number of
separator-separated values, and each output row picks one value from each
field's split. -/
theorem claim_C9_split_fields (sep : List Char) (row : List (List Char)) :
    (splitFieldsRow sep row).length =
      (row.map (fun x => (pysplit sep x).length)).prod ∧
    ∀ d ∈ splitFieldsRow sep row,
      List.Forall₂ (fun v x => v ∈ pysplit sep x) d row := by
  constructor
  · simp [splitFieldsRow, itertoolsProduct_length, List.map_map, Function.comp_def]
  · intro d hd
    have h := mem_itertoolsProduct hd
    exact (List.forall₂_map_right_iff).mp h

theorem setEntry_length (m : List (List String)) (c r : Nat) (v : String) :
    (setEntry m c r v).length = m.length :=
  List.length_set m c _

theorem setEntry_rowlen (m : List (List String)) (c r : Nat) (v : String) (c' : Nat) :
    ((setEntry m c r v).getD c' []).length = (m.getD c' []).length := by
  unfold setEntry
  rcases eq_or_ne c c' with rfl | hcc
  · rw [List.getD_eq_getElem?_getD, List.getElem?_set, List.getD_eq_getElem?_getD]
    by_cases hc : c < m.length
    · simp [hc, List.getElem?_eq_getElem hc]
    · simp [hc, List.getElem?_eq_none (Nat.le_of_not_lt hc)]
  · rw [List.getD_eq_getElem?_getD, List.getElem?_set_ne hcc, List.getD_eq_getElem?_getD]

theorem setEntry_entry (m : List (List String)) (c r : Nat) (v : String)
    (hc : c < m.length) (hr : r < (m.getD c []).length) (c' r' : Nat) :
    entry (setEntry m c r v) c' r' = if c' = c ∧ r' = r then v else entry m c' r' := by
  unfold entry setEntry
  rcases eq_or_ne c' c with rfl | hcc
  · have h1 : (m.set c' ((m.getD c' []).set r v)).getD c' [] = (m.getD c' []).set r v := by
      rw [List.getD_eq_getElem?_getD, List.getElem?_set_self hc]
      rfl
    rw [h1]
    rcases eq_or_ne r' r with rfl | hrr
    · rw [List.getD_eq_getElem?_getD, List.getElem?_set_self hr]
      simp
    · rw [List.getD_eq_getElem?_getD, List.getElem?_set_ne (Ne.symm hrr),
        ← List.getD_eq_getElem?_getD]
      simp [hrr]
  · rw [List.getD_eq_getElem?_getD (m.set c _), List.getElem?_set_ne (Ne.symm hcc),
      ← List.getD_eq_getElem?_getD]
    simp [hcc]

theorem fillRowFold_length (r : Nat) (row : List String) (cs : List Nat) :
    ∀ m : List (List String),
      (cs.foldl (fun acc c => setEntry acc c r (row.getD c "")) m).length = m.length := by
  induction cs with
  | nil => intro m; rfl
  | cons c cs ih =>
    intro m
    rw [List.foldl_cons, ih, setEntry_length]

theorem fillRowFold_rowlen (r : Nat) (row : List String) (cs : List Nat) :
    ∀ (m : List (List String)) (c' : Nat),
      ((cs.foldl (fun acc c => setEntry acc c r (row.getD c "")) m).getD c' []).length =
        (m.getD c' []).length := by
  induction cs with
  | nil => intro m c'; rfl
  | cons c cs ih =>
    intro m c'
    rw [List.foldl_cons, ih, setEntry_rowlen]

theorem fillRow_length (m : List (List String)) (r : Nat) (row : List String) :
    (fillRow m r row).length = m.length :=
  fillRowFold_length r row _ m

theorem fillRow_rowlen (m : List (List String)) (r : Nat) (row : List String) (c' : Nat) :
    ((fillRow m r row).getD c' []).length = (m.getD c' []).length :=
  fillRowFold_rowlen r row _ m c'

theorem fillRow_entry (m : List (List String)) (r : Nat) (row : List String)
    (hlen : row.length ≤ m.length)
    (hr : ∀ c, c < row.length → r < (m.getD c []).length) (c' r' : Nat) :
    entry (fillRow m r row) c' r' =
      if c' < row.length ∧ r' = r then row.getD c' "" else entry m c' r' := by
  suffices h : ∀ k, k ≤ row.length →
      entry ((List.range k).foldl (fun acc c => setEntry acc c r (row.getD c "")) m) c' r' =
        if c' < k ∧ r' = r then row.getD c' "" else entry m c' r' by
    exact h row.length le_rfl
  intro k
  induction k with
  | zero => intro _; simp
  | succ k ih =>
    intro hk
    have hk' : k ≤ row.length := Nat.le_of_succ_le hk
    rw [List.range_succ, List.foldl_append, List.foldl_cons, List.foldl_nil]
    have hX1 : ((List.range k).foldl
        (fun acc c => setEntry acc c r (row.getD c "")) m).length = m.length :=
      fillRowFold_length r row _ m
    have hX2 : ∀ c'', (((List.range k).foldl
        (fun acc c => setEntry acc c r (row.getD c "")) m).getD c'' []).length =
        (m.getD c'' []).length :=
      fillRowFold_rowlen r row _ m
    rw [setEntry_entry _ k r _ (by rw [hX1]; exact Nat.lt_of_lt_of_le hk hlen)
      (by rw [hX2]; exact hr k (Nat.lt_of_succ_le hk)) c' r', ih hk']
    by_cases h1 : r' = r
    · by_cases h2 : c' = k
      · subst h1; subst h2; simp [Nat.lt_succ_self]
      · by_cases h3 : c' < k
        · simp [h1, h2, h3, Nat.lt_succ_of_lt h3]
        · have : ¬ c' < k + 1 := by omega
          simp [h1, h2, h3, this]
    · simp [h1]

theorem transposeFold_length (rows : List (List String)) (rs : List Nat) :
    ∀ m : List (List String),
      (rs.foldl (fun acc r => fillRow acc r (rows.getD r [])) m).length = m.length := by
  induction rs with
  | nil => intro m; rfl
  | cons r rs ih =>
    intro m
    rw [List.foldl_cons, ih, fillRow_length]

theorem transposeFold_rowlen (rows : List (List String)) (rs : List Nat) :
    ∀ (m : List (List String)) (c' : Nat),
      ((rs.foldl (fun acc r => fillRow acc r (rows.getD r [])) m).getD c' []).length =
        (m.getD c' []).length := by
  induction rs with
  | nil => intro m c'; rfl
  | cons r rs ih =>
    intro m c'
    rw [List.foldl_cons, ih, fillRow_rowlen]

theorem emptyMatrix_length (nc nr : Nat) : (emptyMatrix nc nr).length = nc :=
  List.length_replicate nc _

theorem emptyMatrix_rowlen (nc nr : Nat) (c : Nat) (hc : c < nc) :
    ((emptyMatrix nc nr).getD c []).length = nr := by
  unfold emptyMatrix
  rw [List.getD_eq_getElem?_getD, List.getElem?_replicate]
  simp [hc]

theorem emptyMatrix_entry (nc nr c r : Nat) : entry (emptyMatrix nc nr) c r = "" := by
  unfold entry emptyMatrix
  rw [List.getD_eq_getElem?_getD (List.replicate nc (List.replicate nr "")) c [],
    List.getElem?_replicate]
  by_cases hc : c < nc
  · simp only [hc, if_true, Option.getD_some]
    rw [List.getD_eq_getElem?_getD, List.getElem?_replicate]
    split <;> rfl
  · simp only [hc, if_false, Option.getD_none]
    rfl

theorem foldl_max_ge (l : List Nat) : ∀ a : Nat, (∀ x ∈ l, x ≤ l.foldl max a) ∧ a ≤ l.foldl max a := by
  induction l with
  | nil => intro a; exact ⟨by simp, le_rfl⟩
  | cons b l ih =>
    intro a
    rw [List.foldl_cons]
    refine ⟨?_, ?_⟩
    · intro x hx
      rcases List.mem_cons.mp hx with rfl | hx
      · exact le_trans (le_max_right a x) (ih (max a x)).2
      · exact (ih (max a b)).1 x hx
    · exact le_trans (le_max_left a b) (ih (max a b)).2

theorem rowlen_le_ncolsOf (rows : List (List String)) (r : Nat) (hr : r < rows.length) :
    (rows.getD r []).length ≤ ncolsOf rows := by
  have h1 : rows.getD r [] = rows[r] := by
    rw [List.getD_eq_getElem?_getD, List.getElem?_eq_getElem hr]
    rfl
  have h2 : (rows[r]).length ∈ rows.map List.length :=
    List.mem_map_of_mem List.length (rows.getElem_mem hr)
  rw [h1]
  exact (foldl_max_ge (rows.map List.length) 0).1 _ h2

theorem transposeFill_entry (rows : List (List String))
    (hn : ∀ r, r < rows.length → (rows.getD r []).length ≤ ncolsOf rows) (c' r' : Nat) :
    entry (transposeFill rows (ncolsOf rows)) c' r' =
      if r' < rows.length ∧ c' < (rows.getD r' []).length
      then (rows.getD r' []).getD c' "" else "" := by
  unfold transposeFill
  suffices h : ∀ k, k ≤ rows.length →
      entry ((List.range k).foldl (fun acc r => fillRow acc r (rows.getD r []))
          (emptyMatrix (ncolsOf rows) rows.length)) c' r' =
        if r' < k ∧ c' < (rows.getD r' []).length
        then (rows.getD r' []).getD c' "" else "" by
    exact h rows.length le_rfl
  intro k
  induction k with
  | zero => intro _; simp [emptyMatrix_entry]
  | succ k ih =>
    intro hk
    have hk' : k ≤ rows.length := Nat.le_of_succ_le hk
    rw [List.range_succ, List.foldl_append, List.foldl_cons, List.foldl_nil]
    have hX1 : ((List.range k).foldl (fun acc r => fillRow acc r (rows.getD r []))
        (emptyMatrix (ncolsOf rows) rows.length)).length = ncolsOf rows := by
      rw [transposeFold_length, emptyMatrix_length]
    have hX2 : ∀ c'', c'' < ncolsOf rows → (((List.range k).foldl
        (fun acc r => fillRow acc r (rows.getD r []))
        (emptyMatrix (ncolsOf rows) rows.length)).getD c'' []).length = rows.length := by
      intro c'' hc''
      rw [transposeFold_rowlen, emptyMatrix_rowlen _ _ _ hc'']
    rw [fillRow_entry _ k _ (by rw [hX1]; exact hn k (Nat.lt_of_succ_le hk))
      (fun c hc => by
        rw [hX2 c (Nat.lt_of_lt_of_le hc (hn k (Nat.lt_of_succ_le hk)))]
        exact Nat.lt_of_succ_le hk) c' r', ih hk']
    by_cases h1 : r' = k
    · subst h1
      by_cases h2 : c' < (rows.getD r' []).length
      · simp [h2, Nat.lt_succ_self]
      · have : ¬ (r' < r' ∧ c' < (rows.getD r' []).length) := by tauto
        simp [h2, this]
    · have hiff : (r' < k + 1 ∧ c' < (rows.getD r' []).length) ↔
          (r' < k ∧ c' < (rows.getD r' []).length) := by
        constructor
        · rintro ⟨ha, hb⟩; exact ⟨by omega, hb⟩
        · rintro ⟨ha, hb⟩; exact ⟨by omega, hb⟩
      simp only [h1, and_false, if_false, false_and]
      rw [if_congr hiff rfl rfl]

theorem transposeFill_length (rows : List (List String)) (nc : Nat) :
    (transposeFill rows nc).length = nc := by
  unfold transposeFill
  rw [transposeFold_length, emptyMatrix_length]

theorem transposeFill_rowlen (rows : List (List String)) (nc : Nat) (c : Nat) (hc : c < nc) :
    ((transposeFill rows nc).getD c []).length = rows.length := by
  unfold transposeFill
  rw [transposeFold_rowlen, emptyMatrix_rowlen _ _ _ hc]

/-- C8: for a nonempty list of rows, readAndTransposeTable writes exactly
`ncols` output rows — `ncols` being the maximum field count over the input
rows — each of length `nrows`; output row `c` at position `r` is input row
`r`'s field `c` when that row has more than `c` fields and the empty string
otherwise, so ragged input is padded, not rejected. -/
theorem claim_C8_transpose (rows : List (List String)) (h : rows ≠ []) :
    ∃ out, readAndTransposeTable rows = some out ∧
      out.length = ncolsOf rows ∧
      (∀ c, c < ncolsOf rows → (out.getD c []).length = rows.length) ∧
      (∀ c r, c < ncolsOf rows → r < rows.length →
        entry out c r =
          if c < (rows.getD r []).length then (rows.getD r []).getD c "" else "") := by
  obtain ⟨x, xs, rfl⟩ := List.exists_cons_of_ne_nil h
  have hnc : (List.map List.length xs).foldl max x.length = ncolsOf (x :: xs) := by
    unfold ncolsOf
    rw [List.map_cons, List.foldl_cons, Nat.zero_max]
  refine ⟨transposeFill (x :: xs) (ncolsOf (x :: xs)), ?_, ?_, ?_, ?_⟩
  · simp only [readAndTransposeTable, List.map_cons]
    rw [hnc]
  · exact transposeFill_length _ _
  · intro c hc
    exact transposeFill_rowlen _ _ c hc
  · intro c r _ hr
    rw [transposeFill_entry (x :: xs) (fun r' hr' => rowlen_le_ncolsOf _ r' hr') c r]
    have hr' : r < xs.length + 1 := by simpa using hr
    simp [hr']

theorem takeWhile_all {p : α → Bool} {l : List α} (h : ∀ a ∈ l, p a = true) :
    l.takeWhile p = l :=
  List.takeWhile_eq_self_iff.mpr h

theorem takeWhile_append_stop {p : α → Bool} {l1 : List α} {x : α} {l2 : List α}
    (h1 : ∀ a ∈ l1, p a = true) (hx : p x = false) :
    (l1 ++ x :: l2).takeWhile p = l1 := by
  induction l1 with
  | nil => simp [List.takeWhile_cons, hx]
  | cons a l ih =>
    rw [List.cons_append, List.takeWhile_cons, h1 a (List.mem_cons_self a l)]
    rw [ih (fun b hb => h1 b (List.mem_cons_of_mem a hb))]
    simp

theorem dropWhile_append_stop {p : α → Bool} {l1 : List α} {x : α} {l2 : List α}
    (h1 : ∀ a ∈ l1, p a = true) (hx : p x = false) :
    (l1 ++ x :: l2).dropWhile p = x :: l2 := by
  induction l1 with
  | nil => simp [List.dropWhile_cons, hx]
  | cons a l ih =>
    rw [List.cons_append, List.dropWhile_cons, h1 a (List.mem_cons_self a l)]
    simp only [if_true]
    exact ih (fun b hb => h1 b (List.mem_cons_of_mem a hb))

theorem space_not_digit {ch : Char} (h : isSpaceChar ch = true) : isDigitChar ch = false := by
  simp only [isSpaceChar, decide_eq_true_eq] at h
  rcases h with rfl | rfl | rfl | rfl | rfl | rfl <;> rfl

theorem digit_not_space {ch : Char} (h : isDigitChar ch = true) : isSpaceChar ch = false := by
  cases hs : isSpaceChar ch
  · rfl
  · rw [space_not_digit hs] at h
    exact absurd h (by simp)

theorem tryMatchAt_none_of_no_colon {s sep : List Char} {k : Nat}
    (h : s.get? k ≠ some ':') : tryMatchAt s sep k = none := by
  unfold tryMatchAt
  rw [List.get?_eq_getElem?] at h
  simp [h]

theorem searchSplit_down {s sep : List Char} (k0 : Nat)
    (hne : ∀ j, k0 < j → tryMatchAt s sep j = none) :
    ∀ n, k0 ≤ n → searchSplit s sep n = searchSplit s sep k0 := by
  intro n
  induction n with
  | zero =>
    intro h
    have : k0 = 0 := Nat.le_zero.mp h
    rw [this]
  | succ m ih =>
    intro h
    rcases Nat.eq_or_lt_of_le h with heq | hlt
    · rw [heq]
    · have hm : k0 ≤ m := Nat.lt_succ_iff.mp hlt
      have hnone : tryMatchAt s sep (m + 1) = none := hne (m + 1) (Nat.lt_succ_of_le hm)
      calc searchSplit s sep (m + 1) = searchSplit s sep m := by
            simp [searchSplit, hnone]
        _ = searchSplit s sep k0 := ih hm

theorem splitLocusCore_app (c d1 d2 sep : List Char)
    (hc : c ≠ []) (hcs : ∀ ch ∈ c, isSpaceChar ch = false)
    (hd1 : d1 ≠ []) (hd1d : ∀ ch ∈ d1, isDigitChar ch = true)
    (hd2 : d2 ≠ []) (hd2d : ∀ ch ∈ d2, isDigitChar ch = true)
    (hsepS : ∀ ch ∈ sep, isSpaceChar ch = false)
    (hsepC : ∀ ch ∈ sep, ch ≠ ':')
    (s0 : Char) (stail : List Char) (hsep : sep = s0 :: stail)
    (hs0 : isDigitChar s0 = false) :
    splitLocusCore (c ++ ':' :: (d1 ++ sep ++ d2)) sep =
      some (c, natOfDigits d1, natOfDigits d2) := by
  set t : List Char := d1 ++ sep ++ d2 with ht
  set s : List Char := c ++ ':' :: t with hs
  -- every character of s is non-whitespace
  have hall : ∀ ch ∈ s, (!(isSpaceChar ch)) = true := by
    intro ch hch
    rw [hs] at hch
    rcases List.mem_append.mp hch with h | h
    · simp [hcs ch h]
    · rcases List.mem_cons.mp h with rfl | h
      · rfl
      · rw [ht] at h
        rcases List.mem_append.mp h with h | h
        · rcases List.mem_append.mp h with h | h
          · simp [digit_not_space (hd1d ch h)]
          · simp [hsepS ch h]
        · simp [digit_not_space (hd2d ch h)]
  have hmax : (s.takeWhile (fun ch => !(isSpaceChar ch))).length = s.length := by
    rw [takeWhile_all hall]
  -- no colon after position c.length
  have hnocolon : ∀ j, c.length < j → tryMatchAt s sep j = none := by
    intro j hj
    apply tryMatchAt_none_of_no_colon
    intro heq
    rw [List.get?_eq_getElem?, hs, List.getElem?_append_right (Nat.le_of_lt hj)] at heq
    obtain ⟨j', hj'⟩ : ∃ j', j - c.length = j' + 1 := ⟨j - c.length - 1, by omega⟩
    rw [hj', List.getElem?_cons_succ] at heq
    obtain ⟨hlt, hgt⟩ := List.getElem?_eq_some_iff.mp heq
    have hmem : ':' ∈ t := hgt ▸ List.getElem_mem hlt
    rw [ht] at hmem
    rcases List.mem_append.mp hmem with h | h
    · rcases List.mem_append.mp h with h | h
      · exact absurd (hd1d ':' h) (by decide)
      · exact absurd rfl (hsepC ':' h)
    · exact absurd (hd2d ':' h) (by decide)
  -- the match at position c.length succeeds with the expected groups
  have hcolon : s.get? c.length = some ':' := by
    rw [List.get?_eq_getElem?, hs, List.getElem?_append_right (Nat.le_refl _)]
    simp
  have hdrop : s.drop (c.length + 1) = t := by
    have h1 : s = (c ++ [':']) ++ t := by rw [hs]; simp
    have h2 : (c ++ [':']).length = c.length + 1 := by simp
    rw [h1, ← h2, List.drop_left]
  have htw1 : t.takeWhile isDigitChar = d1 := by
    have h1 : t = d1 ++ s0 :: (stail ++ d2) := by rw [ht, hsep]; simp
    rw [h1]
    exact takeWhile_append_stop hd1d hs0
  have hdw1 : t.dropWhile isDigitChar = sep ++ d2 := by
    have h1 : t = d1 ++ s0 :: (stail ++ d2) := by rw [ht, hsep]; simp
    rw [h1, dropWhile_append_stop hd1d hs0, hsep]
    simp
  have hnum : matchNumPair sep t = some (d1, d2) := by
    unfold matchNumPair
    simp only [htw1, hdw1]
    have h1 : ¬ (d1.isEmpty = true) := by
      rw [List.isEmpty_iff]
      exact hd1
    have h2 : sep.isPrefixOf (sep ++ d2) = true :=
      List.isPrefixOf_iff_prefix.mpr (List.prefix_append sep d2)
    rw [if_neg h1, if_pos h2, List.drop_left, takeWhile_all hd2d]
    have h3 : ¬ (d2.isEmpty = true) := by
      rw [List.isEmpty_iff]
      exact hd2
    rw [if_neg h3]
  have htake : s.take c.length = c := by
    rw [hs]
    have := List.take_left c (':' :: t)
    exact this
  have hmatch : tryMatchAt s sep c.length = some (c, natOfDigits d1, natOfDigits d2) := by
    unfold tryMatchAt
    rw [if_pos hcolon, hdrop, hnum, htake]
    rfl
  -- assemble: the greedy search runs down from s.length to c.length
  obtain ⟨cl, hcl⟩ : ∃ cl, c.length = cl + 1 := by
    obtain ⟨x, xs, rfl⟩ := List.exists_cons_of_ne_nil hc
    exact ⟨xs.length, by simp⟩
  have hlen : c.length ≤ s.length := by
    rw [hs]
    simp
  unfold splitLocusCore
  rw [hmax, searchSplit_down c.length hnocolon s.length hlen, hcl]
  simp [searchSplit, ← hcl, hmatch]

/-- C10: `splitLocus` is partial — for a well-formed locus containing `".."`
(or, failing that, `"-"`) after the contig it returns the contig together
with the start and end positions parsed as integers, while for any string
containing neither `".."` nor `"-"` no pattern is attempted and the function
raises instead of returning (modelled by `none`). -/
theorem claim_C10_splitLocus :
    (∀ s : String, ¬ (['.', '.'] <:+: s.data) → ¬ (['-'] <:+: s.data) →
      splitLocus s = none) ∧
    (∀ c d1 d2 : List Char,
      c ≠ [] → (∀ ch ∈ c, isSpaceChar ch = false) →
      d1 ≠ [] → (∀ ch ∈ d1, isDigitChar ch = true) →
      d2 ≠ [] → (∀ ch ∈ d2, isDigitChar ch = true) →
      splitLocus (String.mk (c ++ ':' :: (d1 ++ ['.', '.'] ++ d2))) =
        some (String.mk c, natOfDigits d1, natOfDigits d2)) ∧
    (∀ c d1 d2 : List Char,
      c ≠ [] → (∀ ch ∈ c, isSpaceChar ch = false) →
      d1 ≠ [] → (∀ ch ∈ d1, isDigitChar ch = true) →
      d2 ≠ [] → (∀ ch ∈ d2, isDigitChar ch = true) →
      ¬ (['.', '.'] <:+: (c ++ ':' :: (d1 ++ ['-'] ++ d2))) →
      splitLocus (String.mk (c ++ ':' :: (d1 ++ ['-'] ++ d2))) =
        some (String.mk c, natOfDigits d1, natOfDigits d2)) := by
  refine ⟨?_, ?_, ?_⟩
  · intro s h1 h2
    unfold splitLocus
    rw [if_neg h1, if_neg h2]
  · intro c d1 d2 hc hcs hd1 hd1d hd2 hd2d
    unfold splitLocus
    rw [if_pos ?hin]
    case hin =>
      show ['.', '.'] <:+: (c ++ ':' :: (d1 ++ ['.', '.'] ++ d2))
      exact ⟨c ++ ':' :: d1, d2, by simp⟩
    rw [splitLocusCore_app c d1 d2 ['.', '.'] hc hcs hd1 hd1d hd2 hd2d
      (by decide) (by decide) '.' ['.'] rfl (by decide)]
    rfl
  · intro c d1 d2 hc hcs hd1 hd1d hd2 hd2d hnodots
    unfold splitLocus
    rw [if_neg hnodots, if_pos ?hin2]
    case hin2 =>
      show ['-'] <:+: (c ++ ':' :: (d1 ++ ['-'] ++ d2))
      exact ⟨c ++ ':' :: d1, d2, by simp⟩
    rw [splitLocusCore_app c d1 d2 ['-'] hc hcs hd1 hd1d hd2 hd2d
      (by decide) (by decide) '-' [] rfl (by decide)]
    rfl

theorem execTrace_error_of_failing {exec : String → Nat} :
    ∀ (tr : List Action) (s : String), Action.runShell s ∈ tr → exec s ≠ 0 →
      ∃ e, execTrace exec tr = Except.error e := by
  intro tr
  induction tr with
  | nil =>
    intro s h
    exact absurd h (List.not_mem_nil _)
  | cons a rest ih =>
    intro s hmem hfail
    cases a with
    | runShell s' =>
      by_cases h0 : exec s' = 0
      · have hrest : Action.runShell s ∈ rest := by
          rcases List.mem_cons.mp hmem with heq | h
          · injection heq with hss
            exact absurd (hss ▸ h0) hfail
          · exact h
        obtain ⟨e, he⟩ := ih s hrest hfail
        exact ⟨e, by simp [execTrace, prun, h0, he]⟩
      · exact ⟨s', by simp [execTrace, prun, h0]⟩
    | load i t o =>
      have hrest : Action.runShell s ∈ rest := by
        rcases List.mem_cons.mp hmem with heq | h
        · exact absurd heq (by simp)
        · exact h
      obtain ⟨e, he⟩ := ih s hrest hfail
      exact ⟨e, by simp [execTrace, he]⟩

/-- C1: for every modelled pipeline task, a non-zero exit code of a shell
command the task invokes makes its execution end in an error — the
exception propagates out of the task body (no task contains a handler that
would retry, back off or partially recover). -/
theorem claim_C1_error_propagation :
    ∀ st ∈ pipelineStages, ∀ (exec : String → Nat) (ins : List String) (out : String)
      (ps : Params) (s : String),
      Action.runShell s ∈ st.trace ins out ps → exec s ≠ 0 →
      ∃ e, execTrace exec (st.trace ins out ps) = Except.error e := by
  intro st _ exec ins out ps s hmem hfail
  exact execTrace_error_of_failing _ s hmem hfail

/-- C1 witness: `countReads` with an executor on which every command exits
with code 1 ends in an error. -/
theorem claim_C1_error_propagation_witness :
    ∃ e, execTrace (fun _ => 1)
      (countReadsStage.trace ["a.fastq.gz"] "nreads.dir/a.nreads" []) = Except.error e :=
  claim_C1_error_propagation countReadsStage
    (by unfold pipelineStages; exact List.mem_cons_self _ _)
    (fun _ => 1) ["a.fastq.gz"] "nreads.dir/a.nreads" []
    (countReadsStatement [] ["a.fastq.gz"] "nreads.dir/a.nreads")
    (by simp [countReadsStage]) (by simp)

/-- C2 counterexample: not every pipeline stage follows the claimed
three-step shape — the decorated stage `mapping` (pipeline_mapping.py line
1134) has the body `pass`: it builds no shell command and invokes no
external tool. -/
theorem counterexample_C2_mapping_stage :
    ¬ (∀ st ∈ pipelineStages, stageFollowsThreeStepShape st) := by
  intro h
  have hm : mappingStage ∈ pipelineStages := by
    unfold pipelineStages
    exact List.mem_cons_of_mem _ (List.mem_cons_of_mem _ (List.mem_cons_of_mem _
      (List.mem_cons_of_mem _ (List.mem_cons_of_mem _ (List.mem_cons_self _ _)))))
  obtain ⟨hshell, _⟩ := h mappingStage hm
  obtain ⟨s, hs⟩ := hshell [] "" []
  simp [mappingStage] at hs

/-- C2 (amended): the tool-invoking stages build exactly one shell command —
interpolating configuration values such as the configured false-discovery
rate into the template — and invoke it via `P.run()`; the load tasks load
tabular output into a database table via `P.load`; but load tasks and
aggregator stages such as `mapping` invoke no external tool themselves. -/
theorem claim_C2_amended_stage_shape :
    (∀ st ∈ toolStages, ∀ (ins : List String) (out : String) (ps : Params),
      ∃ s, st.trace ins out ps = [Action.runShell s]) ∧
    (∀ st ∈ loadStages, ∀ (ins : List String) (out : String) (ps : Params),
      ∃ i t o, st.trace ins out ps = [Action.load i t o]) ∧
    (∀ (ps : Params) (ins : List String) (out : String),
      (" --fdr=" ++ getParam ps "deseq_fdr").data <:+: (runDESeqStatement ps ins out).data) := by
  refine ⟨?_, ?_, ?_⟩
  · intro st hst ins out ps
    unfold toolStages at hst
    rcases List.mem_cons.mp hst with rfl | hst
    · exact ⟨_, rfl⟩
    rcases List.mem_cons.mp hst with rfl | hst
    · exact ⟨_, rfl⟩
    rcases List.mem_cons.mp hst with rfl | hst
    · exact ⟨_, rfl⟩
    exact absurd hst (List.not_mem_nil _)
  · intro st hst ins out ps
    unfold loadStages at hst
    rcases List.mem_cons.mp hst with rfl | hst
    · exact ⟨_, _, _, rfl⟩
    rcases List.mem_cons.mp hst with rfl | hst
    · exact ⟨_, _, _, rfl⟩
    exact absurd hst (List.not_mem_nil _)
  · intro ps ins out
    unfold runDESeqStatement
    refine ⟨("python " ++ getParam ps "scriptsdir" ++ "/runExpression.py --method=deseq" ++
        " --tags-tsv-file=" ++ ins.getD 1 "" ++
        " --design-tsv-file=" ++ ins.getD 0 "" ++
        " --output-filename-pattern=" ++ snip out ".tsv.gz" ++ "." ++
        " --outfile=" ++ out).data,
      (" --deseq-fit-type=" ++ getParam ps "deseq_fit_type" ++
        " --deseq-dispersion-method=" ++ getParam ps "deseq_dispersion_method" ++
        " --deseq-sharing-mode=" ++ getParam ps "deseq_sharing_mode" ++
        " --filter-min-counts-per-row=" ++ getParam ps "tags_filter_min_counts_per_row" ++
        " --filter-min-counts-per-sample=" ++ getParam ps "tags_filter_min_counts_per_sample" ++
        " --filter-percentile-rowsums=" ++ getParam ps "tags_filter_percentile_rowsums" ++
        " > " ++ out ++ ".log ").data, ?_⟩
    simp only [String.data_append, List.append_assoc]

/-- C2 witness: instantiating the amended stage-shape theorem at `runDESeq`
with concrete inputs. -/
theorem claim_C2_amended_stage_shape_witness :
    ∃ s, runDESeqStage.trace ["design.tsv", "counts.tsv.gz"] "deseq.dir/out.tsv.gz" [] =
      [Action.runShell s] :=
  claim_C2_amended_stage_shape.1 runDESeqStage
    (by unfold toolStages
        exact List.mem_cons_of_mem _ (List.mem_cons_of_mem _ (List.mem_cons_self _ _)))
    ["design.tsv", "counts.tsv.gz"] "deseq.dir/out.tsv.gz" []

/-- C4: running a load task's database effect twice leaves every table in
the same state as running it once — the loader overwrites the target table,
so loading is idempotent. -/
theorem claim_C4_load_idempotent :
    ∀ st ∈ loadStages, ∀ (files : String → List (List Char)) (db : DB)
      (ins : List String) (out : String) (ps : Params),
      applyTrace files (applyTrace files db (st.trace ins out ps)) (st.trace ins out ps) =
        applyTrace files db (st.trace ins out ps) := by
  intro st hst files db ins out ps
  unfold loadStages at hst
  rcases List.mem_cons.mp hst with rfl | hst
  · funext n
    simp only [loadTophatStatsStage, applyTrace, List.foldl_cons, List.foldl_nil,
      applyAction, loadTSV, loadTable]
    split <;> rfl
  rcases List.mem_cons.mp hst with rfl | hst
  · funext n
    simp only [loadDESeqStage, applyTrace, List.foldl_cons, List.foldl_nil,
      applyAction, loadTSV, loadTable]
    split <;> rfl
  exact absurd hst (List.not_mem_nil _)

/-- C4 witness: re-running `loadTophatStats` on a concrete database and file
state changes nothing. -/
theorem claim_C4_load_idempotent_witness :
    applyTrace (fun _ => []) (applyTrace (fun _ => []) (fun _ => none)
        (loadTophatStatsStage.trace ["tophat_stats.tsv"] "tophat_stats.load" []))
      (loadTophatStatsStage.trace ["tophat_stats.tsv"] "tophat_stats.load" []) =
      applyTrace (fun _ => []) (fun _ => none)
        (loadTophatStatsStage.trace ["tophat_stats.tsv"] "tophat_stats.load" []) :=
  claim_C4_load_idempotent loadTophatStatsStage
    (by unfold loadStages; exact List.mem_cons_self _ _)
    (fun _ => []) (fun _ => none) ["tophat_stats.tsv"] "tophat_stats.load" []

theorem snip_data (s sfx : String) (pre : List Char) (hpre : s.data = pre ++ sfx.data) :
    (snip s sfx).data = pre := by
  unfold snip
  have hsfx : sfx.data.isSuffixOf s.data = true :=
    List.isSuffixOf_iff_suffix.mpr ⟨pre, hpre.symm⟩
  rw [if_pos hsfx]
  show s.data.take (s.data.length - sfx.data.length) = pre
  rw [hpre, List.length_append]
  have h1 : pre.length + sfx.data.length - sfx.data.length = pre.length := by omega
  rw [h1, List.take_left' rfl]

theorem basename_nodir (s : String) (h : ∀ c ∈ s.data, c ≠ '/') :
    (basename s).data = s.data := by
  unfold basename
  show (s.data.reverse.takeWhile (fun c => c ≠ '/')).reverse = s.data
  rw [takeWhile_all, List.reverse_reverse]
  intro c hc
  simp [h c (List.mem_reverse.mp hc)]

theorem loadDESeq_tablename (track : String) (h : plainTrack track) :
    loadDESeqTask.tablenameOf (loadDESeqTask.outfileFor track) =
      track ++ "_deseq_gene_diff" := by
  have h1 : (snip (track ++ "_deseq.load") ".load").data = track.data ++ "_deseq".data := by
    apply snip_data
    rw [String.data_append]
    have he : "_deseq.load".data = "_deseq".data ++ ".load".data := by decide
    rw [he, List.append_assoc]
  have h2 : (basename (snip (track ++ "_deseq.load") ".load")).data =
      track.data ++ "_deseq".data := by
    rw [basename_nodir _ ?hall, h1]
    case hall =>
      rw [h1]
      intro c hc
      rcases List.mem_append.mp hc with hc | hc
      · exact (h c hc).1
      · exact (by decide : ∀ c ∈ "_deseq".data, c ≠ '/') c hc
  have h3 : (toTable (track ++ "_deseq.load")).data = track.data ++ "_deseq".data := by
    show (basename (snip (track ++ "_deseq.load") ".load")).data.map
      (fun c => if c = '.' ∨ c = '-' then '_' else c) = _
    have hmap : ∀ c ∈ track.data,
        (if c = '.' ∨ c = '-' then '_' else c) = id c := by
      intro c hc
      simp [(h c hc).2.1, (h c hc).2.2]
    have he : ("_deseq".data).map (fun c => if c = '.' ∨ c = '-' then '_' else c) =
        "_deseq".data := by decide
    rw [h2, List.map_append, he, List.map_congr_left hmap, List.map_id]
  show toTable (track ++ "_deseq.load") ++ "_gene_diff" = track ++ "_deseq_gene_diff"
  apply String.ext
  have he2 : "_deseq".data ++ "_gene_diff".data = "_deseq_gene_diff".data := by decide
  rw [String.data_append, h3, String.data_append, List.append_assoc, he2]

/-- C5 counterexample: not every load task derives its table name from the
track plus a stage suffix — `loadTophatStats` loads the merged stats file
into the fixed table `tophat_stats`, which is not `track ++ suffix` for the
track `z`. -/
theorem counterexample_C5_loadTophatStats : ¬ loadTasksFollowTrackNaming := by
  intro h
  obtain ⟨sfx, hsfx⟩ := h loadTophatStatsTask
    (by unfold loadTasks; exact List.mem_cons_of_mem _ (List.mem_cons_self _ _))
  have h1 := hsfx "z" (by unfold plainTrack; decide)
  have h2 : loadTophatStatsTask.tablenameOf (loadTophatStatsTask.outfileFor "z") =
      "tophat_stats" := by decide
  rw [h2] at h1
  have h3 := congrArg String.data h1
  rw [String.data_append] at h3
  have hz : "z".data = ['z'] := by decide
  have ht : "tophat_stats".data = 't' :: "ophat_stats".data := by decide
  rw [hz, ht] at h3
  injection h3 with h4 _
  exact absurd h4 (by decide)

/-- C5 (amended): per-track load tasks follow the `<track>_<stage>` naming
convention — `loadDESeq` loads into `<track>_deseq_gene_diff` — and every
modelled report tracker addresses the table obtained by concatenating the
captured track with its stage suffix (`<track>_relab`, `<track>_readmap`,
`<track>_DEresults`); but merged stats load tasks such as `loadTophatStats`
use a fixed table name (`tophat_stats`) that is not prefixed by a track. -/
theorem claim_C5_amended_table_naming :
    (∀ track : String, plainTrack track →
      loadDESeqTask.tablenameOf (loadDESeqTask.outfileFor track) =
        track ++ "_deseq_gene_diff") ∧
    (∀ track taxon : String,
      addressesTable (relativeAbundanceStatement track taxon) (track ++ "_relab")) ∧
    (∀ track : String,
      addressesTable (contributingReadsStatement track) (track ++ "_readmap")) ∧
    (∀ track whereClause : String,
      addressesTable (sleuthResultsStatement track whereClause) (track ++ "_DEresults")) ∧
    (∀ track : String,
      loadTophatStatsTask.tablenameOf (loadTophatStatsTask.outfileFor track) =
        "tophat_stats") := by
  refine ⟨loadDESeq_tablename, ?_, ?_, ?_, ?_⟩
  · intro track taxon
    unfold addressesTable relativeAbundanceStatement
    refine ⟨"SELECT taxon, rel_abundance ".data,
      (" WHERE taxon_level == \x27" ++ taxon ++ "\x27 AND rel_abundance > 1").data, ?_⟩
    simp only [String.data_append, List.append_assoc]
  · intro track
    unfold addressesTable contributingReadsStatement
    refine ⟨"SELECT count(*) ".data, [], ?_⟩
    simp only [String.data_append, List.append_assoc, List.append_nil]
  · intro track whereClause
    unfold addressesTable sleuthResultsStatement
    refine ⟨("SELECT A.gene_name, A.gene_id, A.transcript_id, A.transcript_biotype," ++
        " A.control_mean AS expression, A.fold, A.l2fold AS log2_fold," ++
        " A.p_value, A.p_value_adj, A.significant, B.reason AS flagged ").data,
      (" AS A" ++ " LEFT JOIN kallisto_flagged_transcripts AS B" ++
        " ON A.transcript_id = B.transcript_id " ++ whereClause ++
        " ORDER BY A.significant DESC, A.fold DESC").data, ?_⟩
    simp only [String.data_append, List.append_assoc]
  · intro track
    show toTable "tophat_stats.load" = "tophat_stats"
    decide

/-- C5 witness: instantiating the amended naming theorem at a concrete
track. -/
theorem claim_C5_amended_table_naming_witness :
    loadDESeqTask.tablenameOf (loadDESeqTask.outfileFor "UHR1") = "UHR1_deseq_gene_diff" :=
  claim_C5_amended_table_naming.1 "UHR1" (by unfold plainTrack; decide)

theorem splitChar_no_sep {t : Char} : ∀ {f : List Char}, t ∉ f → splitChar t f = [f] := by
  intro f
  induction f with
  | nil => intro _; rfl
  | cons c rest ih =>
    intro h
    have hct : ¬ (c = t) := fun e => h (e ▸ List.mem_cons_self c rest)
    conv_lhs => rw [splitChar]
    rw [if_neg hct, ih (fun hm => h (List.mem_cons_of_mem c hm))]

theorem splitChar_append_sep {t : Char} {rest : List Char} :
    ∀ {f : List Char}, t ∉ f → splitChar t (f ++ t :: rest) = f :: splitChar t rest := by
  intro f
  induction f with
  | nil =>
    intro _
    show splitChar t (t :: rest) = [] :: splitChar t rest
    conv_lhs => rw [splitChar]
    rw [if_pos rfl]
  | cons c f' ih =>
    intro h
    have hct : ¬ (c = t) := fun e => h (e ▸ List.mem_cons_self c f')
    show splitChar t (c :: (f' ++ t :: rest)) = (c :: f') :: splitChar t rest
    conv_lhs => rw [splitChar]
    rw [if_neg hct, ih (fun hm => h (List.mem_cons_of_mem c hm))]

theorem splitChar_joinChar {t : Char} :
    ∀ (rows : List (List Char)), rows ≠ [] → (∀ f ∈ rows, t ∉ f) →
      splitChar t (joinChar t rows) = rows := by
  intro rows
  induction rows with
  | nil => intro h; exact absurd rfl h
  | cons f rows' ih =>
    intro _ hall
    cases rows' with
    | nil =>
      show splitChar t f = [f]
      exact splitChar_no_sep (hall f (List.mem_cons_self f []))
    | cons g rows'' =>
      show splitChar t (f ++ t :: joinChar t (g :: rows'')) = f :: (g :: rows'')
      rw [splitChar_append_sep (hall f (List.mem_cons_self f _))]
      rw [ih (List.cons_ne_nil g rows'')
        (fun x hx => hall x (List.mem_cons_of_mem f hx))]

/-- C6: loading tab-separated tool output is verbatim — for any table whose
rows are written as tab-joined fields (fields containing no tab, rows
nonempty, as the stats tasks write them), the rows stored in the database
equal the rows and values of the tab-separated file, with no value
rewritten. -/
theorem claim_C6_verbatim_load (db : DB) (name : String)
    (rows : List (List (List Char)))
    (h : ∀ row ∈ rows, row ≠ [] ∧ ∀ f ∈ row, '\t' ∉ f) :
    loadTSV db name (rows.map (fun row => joinChar '\t' row)) name = some rows := by
  show (if name = name then some ((rows.map (fun row => joinChar '\t' row)).map
    (fun l => splitChar '\t' l)) else db name) = some rows
  rw [if_pos rfl, List.map_map]
  have hc : ∀ row ∈ rows,
      ((fun l => splitChar '\t' l) ∘ (fun row => joinChar '\t' row)) row = id row := by
    intro row hr
    exact splitChar_joinChar row (h row hr).1 (h row hr).2
  rw [List.map_congr_left hc, List.map_id]

/-- C6 witness: a concrete two-row stats table loads back verbatim. -/
theorem claim_C6_verbatim_load_witness :
    loadTSV (fun _ => none) "tophat_stats"
      ([[['a'], ['1', '2']], [['b'], ['3']]].map (fun row => joinChar '\t' row))
      "tophat_stats" = some [[['a'], ['1', '2']], [['b'], ['3']]] :=
  claim_C6_verbatim_load (fun _ => none) "tophat_stats" _ (by decide)

/-- C7: the concurrency-relevant behaviour of the modelled tasks is fully
captured by their declared resource hints, which are functions of the
configuration alone — any external scheduling decision taken from the hints
is therefore identical for configurations that agree on the declared
parameters; the repository contributes nothing else (no lock, no
concurrency primitive appears in any task body of the embedding). -/
theorem claim_C7_declarative_hints :
    ∀ (schedule : ResourceHints → Nat → Bool) (ps ps' : Params) (slots : Nat),
      (getParam ps "tophat_threads" = getParam ps' "tophat_threads" →
        getParam ps "tophat_options" = getParam ps' "tophat_options" →
        getParam ps "tophat_memory" = getParam ps' "tophat_memory" →
        schedule (mapReadsWithTophatHints ps) slots =
          schedule (mapReadsWithTophatHints ps') slots) ∧
      (List.lookup "jobs_limit_db" ps = List.lookup "jobs_limit_db" ps' →
        schedule (loadTophatStatsHints ps) slots =
          schedule (loadTophatStatsHints ps') slots) := by
  intro schedule ps ps' slots
  constructor
  · intro h1 h2 h3
    unfold mapReadsWithTophatHints
    rw [h1, h2, h3]
  · intro h
    unfold loadTophatStatsHints
    rw [h]

/-- C7 witness: two configurations agreeing on the tophat parameters yield
the same scheduling input. -/
theorem claim_C7_declarative_hints_witness :
    (fun (h : ResourceHints) (_ : Nat) => h.jobs_limit.isSome)
        (mapReadsWithTophatHints [("tophat_threads", "4")]) 0 =
      (fun (h : ResourceHints) (_ : Nat) => h.jobs_limit.isSome)
        (mapReadsWithTophatHints [("tophat_threads", "4"), ("x", "y")]) 0 :=
  (claim_C7_declarative_hints (fun h _ => h.jobs_limit.isSome)
    [("tophat_threads", "4")] [("tophat_threads", "4"), ("x", "y")] 0).1
    (by decide) (by decide) (by decide)

/-- C3: the modelled incremental re-run decision of the workflow library,
applied to the declarative input/output description embedded from the
`mapReadsWithTophat` decorators, skips the task exactly when the declared
output file exists with a modification time newer than those of all three
declared input files. -/
theorem claim_C3_incremental_rerun (fs : FileState)
    (infile junctions transcriptome track : String) :
    taskUpToDate fs (tophatTaskDecl infile junctions transcriptome track) = true ↔
      ∃ tout, fs (tophatOutputFor track) = some tout ∧
        ∀ i ∈ [infile, junctions, transcriptome], ∃ tin, fs i = some tin ∧ tin < tout := by
  unfold taskUpToDate tophatTaskDecl
  cases h : fs (tophatOutputFor track) with
  | none => simp [h]
  | some tout =>
    simp only [h, Option.some.injEq]
    rw [List.all_eq_true]
    constructor
    · intro hall
      refine ⟨tout, rfl, ?_⟩
      intro i hi
      have hone := hall i hi
      cases hfi : fs i with
      | none =>
        rw [hfi] at hone
        simp at hone
      | some tin =>
        rw [hfi] at hone
        exact ⟨tin, rfl, by simpa using hone⟩
    · rintro ⟨tout', heq, hins⟩
      intro i hi
      obtain ⟨tin, hfi, hlt⟩ := hins i hi
      rw [hfi]
      subst heq
      simpa using hlt

/-- C8 witness: transposing the concrete ragged table `[[a,b],[c]]`. -/
theorem claim_C8_transpose_witness :
    ∃ out, readAndTransposeTable [["a", "b"], ["c"]] = some out ∧
      out.length = ncolsOf [["a", "b"], ["c"]] ∧
      (∀ c, c < ncolsOf [["a", "b"], ["c"]] →
        (out.getD c []).length = ([["a", "b"], ["c"]] : List (List String)).length) ∧
      (∀ c r, c < ncolsOf [["a", "b"], ["c"]] →
        r < ([["a", "b"], ["c"]] : List (List String)).length →
        entry out c r =
          if c < (([["a", "b"], ["c"]] : List (List String)).getD r []).length
          then (([["a", "b"], ["c"]] : List (List String)).getD r []).getD c "" else "") :=
  claim_C8_transpose [["a", "b"], ["c"]] (by decide)

/-- C10 witness: the three behaviours at concrete loci. -/
theorem claim_C10_splitLocus_witness :
    splitLocus "chrX" = none ∧
    splitLocus "chr1:10..20" = some ("chr1", 10, 20) ∧
    splitLocus "chr2:5-8" = some ("chr2", 5, 8) := by
  refine ⟨claim_C10_splitLocus.1 "chrX" (by decide) (by decide), ?_, ?_⟩
  · exact claim_C10_splitLocus.2.1 ['c', 'h', 'r', '1'] ['1', '0'] ['2', '0']
      (by decide) (by decide) (by decide) (by decide) (by decide) (by decide)
  · exact claim_C10_splitLocus.2.2 ['c', 'h', 'r', '2'] ['5'] ['8']
      (by decide) (by decide) (by decide) (by decide) (by decide) (by decide) (by decide)

end CGAT
